import Mathlib

/-!
Shallow embedding of the Conway's Game of Life implementation in
`src/game.rs` (types `Cell`, `Grid`, `Operation`, `ConwaySim`).

Machine integers (`u32`, `usize`) are modelled as `Nat`.  A Rust slice
indexing `self.grid[idx]` panics when `idx` is out of range; every
operation that can panic is modelled as an `Option`-valued function,
`none` meaning the panic.
-/

namespace GameOfLife

/-- `Cell` from `game.rs`: a cell is either dead or alive. -/
inductive Cell where
  | Dead : Cell
  | Alive : Cell
deriving DecidableEq, Repr

/-- `Grid` from `game.rs`: dimensions plus the cell vector in row-major
order. -/
structure Grid where
  num_rows : Nat
  num_cols : Nat
  grid : List Cell
deriving DecidableEq, Repr

/-- `Grid::new`: all cells dead, vector length `num_rows * num_cols`. -/
def Grid.new (num_rows num_cols : Nat) : Grid :=
  { num_rows := num_rows, num_cols := num_cols,
    grid := List.replicate (num_rows * num_cols) Cell.Dead }

/-- `Grid::cell_to_index`: row-major index, with no bounds check of any
kind (mirrors `((row * self.num_cols) + col) as usize`). -/
def Grid.cell_to_index (g : Grid) (row col : Nat) : Nat :=
  row * g.num_cols + col

/-- `Grid::get`: `self.grid[index]`, panic modelled as `none` when the
index is outside the cell vector. -/
def Grid.get? (g : Grid) (row col : Nat) : Option Cell :=
  g.grid[g.cell_to_index row col]?

/-- `Grid::set`: `self.grid[index] = state`, panic modelled as `none`. -/
def Grid.set? (g : Grid) (row col : Nat) (state : Cell) : Option Grid :=
  if g.cell_to_index row col < g.grid.length then
    some { g with grid := g.grid.set (g.cell_to_index row col) state }
  else
    none

/-- `Grid::set_cells`: loop over the coordinate list, setting each to
`Alive`; the first panicking write aborts (models the Rust panic). -/
def Grid.set_cells? (g : Grid) (cells : List (Nat × Nat)) : Option Grid :=
  cells.foldlM (fun acc p => acc.set? p.1 p.2 Cell.Alive) g

/-- Total read used to state properties: the cell at `(row, col)`, with
`Dead` as the (never semantically relevant) default out of range. -/
def Grid.getT (g : Grid) (row col : Nat) : Cell :=
  g.grid.getD (g.cell_to_index row col) Cell.Dead

/-- Well-formedness: the cell vector has exactly `num_rows * num_cols`
entries.  `Grid::new` establishes it and every constructible grid has it. -/
def Grid.wf (g : Grid) : Prop :=
  g.grid.length = g.num_rows * g.num_cols

/-- `Operation` from `game.rs`: a pending write scheduled by the rule
engine. -/
structure Operation where
  row : Nat
  col : Nat
  state : Cell
deriving DecidableEq, Repr

/-- `ConwaySim` from `game.rs`: the grid plus the generation counter. -/
structure ConwaySim where
  grid : Grid
  generation : Nat
deriving DecidableEq, Repr

/-- `ConwaySim::new`. -/
def ConwaySim.new (num_rows num_cols : Nat) : ConwaySim :=
  { grid := Grid.new num_rows num_cols, generation := 0 }

/-- `ConwaySim::new_with_grid`. -/
def ConwaySim.new_with_grid (grid : Grid) : ConwaySim :=
  { grid := grid, generation := 0 }

/-- `ConwaySim::get_generation`. -/
def ConwaySim.get_generation (s : ConwaySim) : Nat :=
  s.generation

/-- `ConwaySim::is_cell_alive`: `self.grid.get(row, col) == Cell::Alive`,
panicking (`none`) exactly when `get` does. -/
def ConwaySim.is_cell_alive? (s : ConwaySim) (row col : Nat) : Option Bool :=
  (s.grid.get? row col).map (fun c => c == Cell.Alive)

/-- `ConwaySim::is_any_cell_alive`: scan of the cell vector. -/
def ConwaySim.is_any_cell_alive (s : ConwaySim) : Bool :=
  s.grid.grid.any (fun c => c == Cell.Alive)

/-- Total counterpart of `is_cell_alive?` for stating properties. -/
def ConwaySim.aliveT (s : ConwaySim) (row col : Nat) : Bool :=
  s.grid.getT row col == Cell.Alive

/-- One guarded neighbour probe of `ConwaySim::get_neighbor_count`: when
the boundary guard holds, read the cell (possibly panicking) and
contribute 1 if alive; otherwise contribute 0 without any read. -/
def ConwaySim.neighbor_contrib (s : ConwaySim) (g : Bool) (row col : Nat) :
    Option Nat :=
  if g then
    (s.is_cell_alive? row col).map (fun b => if b then 1 else 0)
  else
    some 0

/-- `ConwaySim::get_neighbor_count`: the eight guarded probes of
`game.rs`, in source order (top-left, top-center, top-right, left, right,
bottom-left, bottom-center, bottom-right). -/
def ConwaySim.get_neighbor_count? (s : ConwaySim) (row col : Nat) :
    Option Nat := do
  let c0 ← s.neighbor_contrib (decide (0 < row) && decide (0 < col))
    (row - 1) (col - 1)
  let c1 ← s.neighbor_contrib (decide (0 < row)) (row - 1) col
  let c2 ← s.neighbor_contrib
    (decide (0 < row) && decide (col + 1 < s.grid.num_cols))
    (row - 1) (col + 1)
  let c3 ← s.neighbor_contrib (decide (0 < col)) row (col - 1)
  let c4 ← s.neighbor_contrib (decide (col + 1 < s.grid.num_cols))
    row (col + 1)
  let c5 ← s.neighbor_contrib
    (decide (row + 1 < s.grid.num_rows) && decide (0 < col))
    (row + 1) (col - 1)
  let c6 ← s.neighbor_contrib (decide (row + 1 < s.grid.num_rows))
    (row + 1) col
  let c7 ← s.neighbor_contrib
    (decide (row + 1 < s.grid.num_rows) && decide (col + 1 < s.grid.num_cols))
    (row + 1) (col + 1)
  return c0 + c1 + c2 + c3 + c4 + c5 + c6 + c7

/-- `ConwaySim::set_cells` (delegates to `Grid::set_cells`). -/
def ConwaySim.set_cells? (s : ConwaySim) (cells : List (Nat × Nat)) :
    Option ConwaySim :=
  (s.grid.set_cells? cells).map (fun g => { s with grid := g })

/-- `ConwaySim::apply_rules`: the four Conway rules, scheduling an
`Operation` exactly when the cell's state must change. -/
def ConwaySim.apply_rules? (s : ConwaySim) (row col : Nat) :
    Option (List Operation) := do
  let neighbor_count ← s.get_neighbor_count? row col
  let alive ← s.is_cell_alive? row col
  if alive then
    if neighbor_count < 2 then
      return [{ row := row, col := col, state := Cell.Dead }]
    else if neighbor_count ≤ 3 then
      return []
    else
      return [{ row := row, col := col, state := Cell.Dead }]
  else
    if neighbor_count = 3 then
      return [{ row := row, col := col, state := Cell.Alive }]
    else
      return []

/-- The row-major traversal order of `step`'s double loop. -/
def rowMajorCells (num_rows num_cols : Nat) : List (Nat × Nat) :=
  (List.range num_rows).flatMap
    (fun row => (List.range num_cols).map (fun col => (row, col)))

/-- First phase of `ConwaySim::step`: evaluate every cell against the
pre-step grid, extending the operation list in traversal order. -/
def ConwaySim.collect_operations? (s : ConwaySim) : Option (List Operation) :=
  (rowMajorCells s.grid.num_rows s.grid.num_cols).foldlM
    (fun ops p => (s.apply_rules? p.1 p.2).map (fun results => ops ++ results))
    []

/-- Second phase of `ConwaySim::step`: apply the scheduled operations via
`Grid::set`. -/
def Grid.apply_operations? (g : Grid) (ops : List Operation) : Option Grid :=
  ops.foldlM (fun acc op => acc.set? op.row op.col op.state) g

/-- `ConwaySim::step`: increment the generation, collect the operations
from the pre-step snapshot, then commit them. -/
def ConwaySim.step? (s : ConwaySim) : Option ConwaySim := do
  let ops ← s.collect_operations?
  let g ← s.grid.apply_operations? ops
  return { grid := g, generation := s.generation + 1 }

/-- `n` sequential `step()` calls. -/
def ConwaySim.stepN? (s : ConwaySim) : Nat → Option ConwaySim
  | 0 => some s
  | n + 1 => s.step? >>= (fun t => t.stepN? n)

/-! ## Specification-side definitions

These follow the wording of the specification, to be compared with the
definitions above. -/

/-- The eight Moore-neighbourhood offsets. -/
def mooreOffsets : List (Int × Int) :=
  [(-1, -1), (-1, 0), (-1, 1), (0, -1), (0, 1), (1, -1), (1, 0), (1, 1)]

/-- Modelled from the spec: the contribution of one neighbour position
`(r, c)` (as integers): 1 when the position is on the grid and alive,
0 when it is off the grid (absent, no wraparound) or dead. -/
def specContrib (num_rows num_cols : Nat) (alive : Nat → Nat → Bool)
    (r c : Int) : Nat :=
  if 0 ≤ r ∧ r < (num_rows : Int) ∧ 0 ≤ c ∧ c < (num_cols : Int) ∧
      alive r.toNat c.toNat = true then 1 else 0

/-- Modelled from the spec: the Moore-neighbourhood live count of
`(row, col)`, off-grid positions contributing 0. -/
def mooreCountSpec (num_rows num_cols : Nat) (alive : Nat → Nat → Bool)
    (row col : Nat) : Nat :=
  (mooreOffsets.map (fun d =>
    specContrib num_rows num_cols alive ((row : Int) + d.1)
      ((col : Int) + d.2))).sum

/-- Modelled from the spec: the next state of one cell under Conway's
four rules. -/
def specNextCell (alive : Bool) (count : Nat) : Cell :=
  if alive then
    if count < 2 then Cell.Dead
    else if count ≤ 3 then Cell.Alive
    else Cell.Dead
  else
    if count = 3 then Cell.Alive else Cell.Dead

/-- The next state of the cell `p`, computed from the pre-step snapshot
`s` (spec side, used to characterise `step?`). -/
def specNextAt (s : ConwaySim) (p : Nat × Nat) : Cell :=
  specNextCell (s.aliveT p.1 p.2)
    (mooreCountSpec s.grid.num_rows s.grid.num_cols s.aliveT p.1 p.2)

/-- The operations `apply_rules` schedules for the cell `p`: one write
when the state changes, none otherwise. -/
def specOpsAt (s : ConwaySim) (p : Nat × Nat) : List Operation :=
  if specNextAt s p = s.grid.getT p.1 p.2 then []
  else [{ row := p.1, col := p.2, state := specNextAt s p }]

/-- The full operation list one `step` collects, in traversal order. -/
def specOps (s : ConwaySim) : List Operation :=
  ((rowMajorCells s.grid.num_rows s.grid.num_cols).map (specOpsAt s)).flatten

/-- The horizontal blinker pattern: alive exactly at (2,1), (2,2), (2,3). -/
def hBlinker (r c : Nat) : Bool :=
  decide (r = 2 ∧ (c = 1 ∨ c = 2 ∨ c = 3))

/-- The vertical blinker pattern: alive exactly at (1,2), (2,2), (3,2). -/
def vBlinker (r c : Nat) : Bool :=
  decide (c = 2 ∧ (r = 1 ∨ r = 2 ∨ r = 3))

/-! ## Basic lemmas about the embedding -/

theorem Grid.wf_new (num_rows num_cols : Nat) : (Grid.new num_rows num_cols).wf := by
  simp [Grid.new, Grid.wf]

theorem Grid.cell_to_index_lt {g : Grid} (hwf : g.wf) {row col : Nat}
    (hr : row < g.num_rows) (hc : col < g.num_cols) :
    g.cell_to_index row col < g.grid.length := by
  rw [hwf, Grid.cell_to_index]
  calc row * g.num_cols + col < row * g.num_cols + g.num_cols := by omega
    _ = (row + 1) * g.num_cols := by ring
    _ ≤ g.num_rows * g.num_cols := Nat.mul_le_mul_right _ hr

theorem rowMajor_index_inj {w r₁ c₁ r₂ c₂ : Nat} (h₁ : c₁ < w) (h₂ : c₂ < w)
    (h : r₁ * w + c₁ = r₂ * w + c₂) : r₁ = r₂ ∧ c₁ = c₂ := by
  have hw : 0 < w := Nat.lt_of_le_of_lt (Nat.zero_le _) h₁
  have e₁ : (r₁ * w + c₁) / w = r₁ := by
    rw [Nat.mul_comm r₁ w, Nat.mul_add_div hw, Nat.div_eq_of_lt h₁, Nat.add_zero]
  have e₂ : (r₂ * w + c₂) / w = r₂ := by
    rw [Nat.mul_comm r₂ w, Nat.mul_add_div hw, Nat.div_eq_of_lt h₂, Nat.add_zero]
  have hrr : r₁ = r₂ := by rw [← e₁, ← e₂, h]
  subst hrr
  exact ⟨rfl, by omega⟩

theorem getD_set_eq {α : Type} {l : List α} {i : Nat} (h : i < l.length) (a d : α) :
    (l.set i a).getD i d = a := by
  rw [List.getD_eq_getElem?_getD]
  simp [List.getElem?_set, h]

theorem getD_set_ne {α : Type} {l : List α} {i j : Nat} (h : i ≠ j) (a d : α) :
    (l.set i a).getD j d = l.getD j d := by
  rw [List.getD_eq_getElem?_getD, List.getD_eq_getElem?_getD]
  simp [List.getElem?_set, h]

theorem getD_eq_getElem {α : Type} {l : List α} {i : Nat} (h : i < l.length) (d : α) :
    l.getD i d = l[i] := by
  rw [List.getD_eq_getElem?_getD, List.getElem?_eq_getElem h]
  rfl

theorem Grid.get?_eq_getT {g : Grid} {row col : Nat}
    (h : g.cell_to_index row col < g.grid.length) :
    g.get? row col = some (g.getT row col) := by
  rw [Grid.get?, Grid.getT, List.getElem?_eq_getElem h, getD_eq_getElem h]

theorem Grid.set?_spec {g : Grid} (hwf : g.wf) {row col : Nat}
    (hr : row < g.num_rows) (hc : col < g.num_cols) (st : Cell) :
    ∃ g', g.set? row col st = some g' ∧
      g'.num_rows = g.num_rows ∧ g'.num_cols = g.num_cols ∧ g'.wf ∧
      g'.getT row col = st ∧
      ∀ r c, c < g.num_cols → ¬(r = row ∧ c = col) → g'.getT r c = g.getT r c := by
  have hlt := Grid.cell_to_index_lt hwf hr hc
  refine ⟨{ g with grid := g.grid.set (g.cell_to_index row col) st }, ?_, rfl, rfl, ?_, ?_, ?_⟩
  · rw [Grid.set?, if_pos hlt]
  · show (g.grid.set (g.cell_to_index row col) st).length = g.num_rows * g.num_cols
    rw [List.length_set]
    exact hwf
  · show (g.grid.set (g.cell_to_index row col) st).getD (g.cell_to_index row col) Cell.Dead = st
    exact getD_set_eq hlt st Cell.Dead
  · intro r c hcb hne
    show (g.grid.set (g.cell_to_index row col) st).getD (r * g.num_cols + c) Cell.Dead
      = g.grid.getD (r * g.num_cols + c) Cell.Dead
    refine getD_set_ne ?_ st Cell.Dead
    intro heq
    obtain ⟨h1, h2⟩ := rowMajor_index_inj hc hcb heq
    exact hne ⟨h1.symm, h2.symm⟩

theorem mem_rowMajorCells {p : Nat × Nat} {num_rows num_cols : Nat} :
    p ∈ rowMajorCells num_rows num_cols ↔ p.1 < num_rows ∧ p.2 < num_cols := by
  obtain ⟨r, c⟩ := p
  simp only [rowMajorCells, List.mem_flatMap, List.mem_map, List.mem_range]
  constructor
  · rintro ⟨row, hrow, col, hcol, heq⟩
    obtain ⟨rfl, rfl⟩ : row = r ∧ col = c := by
      exact ⟨congrArg Prod.fst heq, congrArg Prod.snd heq⟩
    exact ⟨hrow, hcol⟩
  · rintro ⟨hr, hc⟩
    exact ⟨r, hr, c, hc, rfl⟩

theorem ConwaySim.is_cell_alive?_eq {s : ConwaySim} (hwf : s.grid.wf) {row col : Nat}
    (hr : row < s.grid.num_rows) (hc : col < s.grid.num_cols) :
    s.is_cell_alive? row col = some (s.aliveT row col) := by
  rw [ConwaySim.is_cell_alive?, Grid.get?_eq_getT (Grid.cell_to_index_lt hwf hr hc)]
  rfl

/-! ## The neighbour count refines the spec-side Moore count -/

theorem ConwaySim.neighbor_contrib_eq {s : ConwaySim} (hwf : s.grid.wf)
    (b : Bool) (nr nc : Nat) (zr zc : Int)
    (hb : b = true ↔ (0 ≤ zr ∧ zr < (s.grid.num_rows : Int) ∧ 0 ≤ zc ∧
      zc < (s.grid.num_cols : Int)))
    (hnr : b = true → zr.toNat = nr) (hnc : b = true → zc.toNat = nc) :
    s.neighbor_contrib b nr nc =
      some (specContrib s.grid.num_rows s.grid.num_cols s.aliveT zr zc) := by
  cases hbv : b with
  | false =>
    have : ¬(0 ≤ zr ∧ zr < (s.grid.num_rows : Int) ∧ 0 ≤ zc ∧
        zc < (s.grid.num_cols : Int)) := by
      intro hin
      exact absurd (hb.mpr hin) (by simp [hbv])
    rw [ConwaySim.neighbor_contrib, if_neg (by simp [hbv]), specContrib, if_neg ?_]
    intro hcond
    exact this ⟨hcond.1, hcond.2.1, hcond.2.2.1, hcond.2.2.2.1⟩
  | true =>
    obtain ⟨h0r, hlr, h0c, hlc⟩ := hb.mp hbv
    obtain rfl := hnr hbv
    obtain rfl := hnc hbv
    have hrn : zr.toNat < s.grid.num_rows := by omega
    have hcn : zc.toNat < s.grid.num_cols := by omega
    rw [ConwaySim.neighbor_contrib, if_pos rfl,
      ConwaySim.is_cell_alive?_eq hwf hrn hcn, Option.map_some', specContrib]
    by_cases ha : s.aliveT zr.toNat zc.toNat = true
    · rw [if_pos ha, if_pos ⟨h0r, hlr, h0c, hlc, ha⟩]
    · rw [if_neg ha, if_neg ?_]
      intro hcond
      exact ha hcond.2.2.2.2

theorem ConwaySim.get_neighbor_count?_eq {s : ConwaySim} (hwf : s.grid.wf)
    {row col : Nat} (hr : row < s.grid.num_rows) (hc : col < s.grid.num_cols) :
    s.get_neighbor_count? row col =
      some (mooreCountSpec s.grid.num_rows s.grid.num_cols s.aliveT row col) := by
  have e0 := ConwaySim.neighbor_contrib_eq hwf
    (decide (0 < row) && decide (0 < col)) (row - 1) (col - 1)
    ((row : Int) + (-1)) ((col : Int) + (-1))
    (by simp only [Bool.and_eq_true, decide_eq_true_eq]; omega)
    (by simp only [Bool.and_eq_true, decide_eq_true_eq]; omega)
    (by simp only [Bool.and_eq_true, decide_eq_true_eq]; omega)
  have e1 := ConwaySim.neighbor_contrib_eq hwf
    (decide (0 < row)) (row - 1) col ((row : Int) + (-1)) ((col : Int) + 0)
    (by simp only [decide_eq_true_eq]; omega)
    (by simp only [decide_eq_true_eq]; omega)
    (by simp only [decide_eq_true_eq]; omega)
  have e2 := ConwaySim.neighbor_contrib_eq hwf
    (decide (0 < row) && decide (col + 1 < s.grid.num_cols)) (row - 1) (col + 1)
    ((row : Int) + (-1)) ((col : Int) + 1)
    (by simp only [Bool.and_eq_true, decide_eq_true_eq]; omega)
    (by simp only [Bool.and_eq_true, decide_eq_true_eq]; omega)
    (by simp only [Bool.and_eq_true, decide_eq_true_eq]; omega)
  have e3 := ConwaySim.neighbor_contrib_eq hwf
    (decide (0 < col)) row (col - 1) ((row : Int) + 0) ((col : Int) + (-1))
    (by simp only [decide_eq_true_eq]; omega)
    (by simp only [decide_eq_true_eq]; omega)
    (by simp only [decide_eq_true_eq]; omega)
  have e4 := ConwaySim.neighbor_contrib_eq hwf
    (decide (col + 1 < s.grid.num_cols)) row (col + 1)
    ((row : Int) + 0) ((col : Int) + 1)
    (by simp only [decide_eq_true_eq]; omega)
    (by simp only [decide_eq_true_eq]; omega)
    (by simp only [decide_eq_true_eq]; omega)
  have e5 := ConwaySim.neighbor_contrib_eq hwf
    (decide (row + 1 < s.grid.num_rows) && decide (0 < col)) (row + 1) (col - 1)
    ((row : Int) + 1) ((col : Int) + (-1))
    (by simp only [Bool.and_eq_true, decide_eq_true_eq]; omega)
    (by simp only [Bool.and_eq_true, decide_eq_true_eq]; omega)
    (by simp only [Bool.and_eq_true, decide_eq_true_eq]; omega)
  have e6 := ConwaySim.neighbor_contrib_eq hwf
    (decide (row + 1 < s.grid.num_rows)) (row + 1) col
    ((row : Int) + 1) ((col : Int) + 0)
    (by simp only [decide_eq_true_eq]; omega)
    (by simp only [decide_eq_true_eq]; omega)
    (by simp only [decide_eq_true_eq]; omega)
  have e7 := ConwaySim.neighbor_contrib_eq hwf
    (decide (row + 1 < s.grid.num_rows) && decide (col + 1 < s.grid.num_cols))
    (row + 1) (col + 1) ((row : Int) + 1) ((col : Int) + 1)
    (by simp only [Bool.and_eq_true, decide_eq_true_eq]; omega)
    (by simp only [Bool.and_eq_true, decide_eq_true_eq]; omega)
    (by simp only [Bool.and_eq_true, decide_eq_true_eq]; omega)
  rw [ConwaySim.get_neighbor_count?]
  rw [e0, e1, e2, e3, e4, e5, e6, e7]
  simp only [Option.bind_eq_bind, Option.some_bind, mooreCountSpec, mooreOffsets,
    List.map_cons, List.map_nil, List.sum_cons, List.sum_nil, Nat.add_zero,
    Option.pure_def]
  congr 1
  omega

/-! ## The rule engine refines the spec-side next-state function -/

theorem ConwaySim.getT_eq_alive {s : ConwaySim} {row col : Nat}
    (h : s.aliveT row col = true) : s.grid.getT row col = Cell.Alive := by
  rwa [ConwaySim.aliveT, beq_iff_eq] at h

theorem ConwaySim.getT_eq_dead {s : ConwaySim} {row col : Nat}
    (h : s.aliveT row col = false) : s.grid.getT row col = Cell.Dead := by
  rw [ConwaySim.aliveT] at h
  cases hg : s.grid.getT row col with
  | Dead => rfl
  | Alive => rw [hg] at h; simp at h

theorem ConwaySim.apply_rules?_eq {s : ConwaySim} (hwf : s.grid.wf) {row col : Nat}
    (hr : row < s.grid.num_rows) (hc : col < s.grid.num_cols) :
    s.apply_rules? row col = some (specOpsAt s (row, col)) := by
  rw [ConwaySim.apply_rules?, ConwaySim.get_neighbor_count?_eq hwf hr hc,
    ConwaySim.is_cell_alive?_eq hwf hr hc]
  simp only [Option.bind_eq_bind, Option.some_bind, specOpsAt, specNextAt,
    specNextCell]
  cases hA : s.aliveT row col with
  | true =>
    have hAlive := ConwaySim.getT_eq_alive hA
    simp only [hAlive, if_true]
    rcases Nat.lt_or_ge
        (mooreCountSpec s.grid.num_rows s.grid.num_cols s.aliveT row col) 2 with
      h2 | h2
    · simp [h2]
    · rcases le_or_lt
          (mooreCountSpec s.grid.num_rows s.grid.num_cols s.aliveT row col) 3 with
        h3 | h3
      · simp [Nat.not_lt_of_ge h2, h3]
      · simp [Nat.not_lt_of_ge h2, Nat.not_le_of_gt h3]
  | false =>
    have hDead := ConwaySim.getT_eq_dead hA
    simp only [hDead, Bool.false_eq_true, if_false]
    by_cases h3 :
        mooreCountSpec s.grid.num_rows s.grid.num_cols s.aliveT row col = 3
    · simp [h3]
    · simp [h3]

/-! ## The two phases of `step` -/

theorem foldlM_collect {α β : Type} (f : α → Option (List β)) (F : α → List β)
    (l : List α) (h : ∀ a ∈ l, f a = some (F a)) (init : List β) :
    l.foldlM (fun acc a => (f a).map (fun results => acc ++ results)) init =
      some (init ++ (l.map F).flatten) := by
  induction l generalizing init with
  | nil => simp [List.foldlM]
  | cons a l ih =>
    have ha : f a = some (F a) := h a (List.mem_cons_self a l)
    have hstep : List.foldlM
        (fun acc a => Option.map (fun results => acc ++ results) (f a)) init (a :: l)
        = List.foldlM
          (fun acc a => Option.map (fun results => acc ++ results) (f a))
          (init ++ F a) l := by
      rw [List.foldlM_cons, ha, Option.map_some']
      rfl
    rw [hstep, ih (fun b hb => h b (List.mem_cons_of_mem a hb)) (init ++ F a)]
    simp [List.append_assoc]

theorem ConwaySim.collect_operations?_eq {s : ConwaySim} (hwf : s.grid.wf) :
    s.collect_operations? = some (specOps s) := by
  rw [ConwaySim.collect_operations?, specOps]
  have := foldlM_collect (fun p => s.apply_rules? p.1 p.2) (specOpsAt s)
    (rowMajorCells s.grid.num_rows s.grid.num_cols) ?_ []
  · rw [this]
    simp
  · intro p hp
    obtain ⟨hp1, hp2⟩ := mem_rowMajorCells.mp hp
    show s.apply_rules? p.1 p.2 = some (specOpsAt s p)
    exact ConwaySim.apply_rules?_eq hwf hp1 hp2

theorem mem_specOpsAt {s : ConwaySim} {p : Nat × Nat} {op : Operation}
    (h : op ∈ specOpsAt s p) :
    op.row = p.1 ∧ op.col = p.2 ∧ op.state = specNextAt s p := by
  rw [specOpsAt] at h
  by_cases hcond : specNextAt s p = s.grid.getT p.1 p.2
  · rw [if_pos hcond] at h
    exact absurd h (List.not_mem_nil op)
  · rw [if_neg hcond] at h
    rcases List.mem_singleton.mp h with rfl
    exact ⟨rfl, rfl, rfl⟩

theorem mem_specOps {s : ConwaySim} {op : Operation} (h : op ∈ specOps s) :
    ∃ p, p ∈ rowMajorCells s.grid.num_rows s.grid.num_cols ∧ op ∈ specOpsAt s p := by
  rw [specOps] at h
  obtain ⟨l, hl, hop⟩ := List.mem_flatten.mp h
  obtain ⟨p, hp, rfl⟩ := List.mem_map.mp hl
  exact ⟨p, hp, hop⟩

theorem Grid.apply_operations?_eq {g : Grid} (hwf : g.wf) (ops : List Operation)
    (h : ∀ op ∈ ops, op.row < g.num_rows ∧ op.col < g.num_cols) :
    g.apply_operations? ops =
      some (Grid.mk g.num_rows g.num_cols
        (ops.foldl
          (fun l op => l.set (op.row * g.num_cols + op.col) op.state) g.grid)) := by
  induction ops generalizing g with
  | nil =>
    rw [Grid.apply_operations?]
    simp [List.foldlM, List.foldl]
  | cons op ops ih =>
    obtain ⟨hor, hoc⟩ := h op (List.mem_cons_self op ops)
    have hlt := Grid.cell_to_index_lt hwf hor hoc
    have hstep : g.set? op.row op.col op.state =
        some { g with grid := g.grid.set (g.cell_to_index op.row op.col) op.state } := by
      rw [Grid.set?, if_pos hlt]
    have hwf' : (Grid.mk g.num_rows g.num_cols
        (g.grid.set (g.cell_to_index op.row op.col) op.state)).wf := by
      show (g.grid.set (g.cell_to_index op.row op.col) op.state).length
        = g.num_rows * g.num_cols
      rw [List.length_set]
      exact hwf
    have hrec := ih hwf' (fun o ho => h o (List.mem_cons_of_mem op ho))
    calc g.apply_operations? (op :: ops)
        = (Grid.mk g.num_rows g.num_cols
            (g.grid.set (g.cell_to_index op.row op.col) op.state)).apply_operations?
            ops := by
          rw [Grid.apply_operations?, Grid.apply_operations?, List.foldlM_cons, hstep]
          rfl
      _ = some (Grid.mk g.num_rows g.num_cols
            (ops.foldl (fun l o => l.set (o.row * g.num_cols + o.col) o.state)
              (g.grid.set (g.cell_to_index op.row op.col) op.state))) := hrec
      _ = some (Grid.mk g.num_rows g.num_cols
            ((op :: ops).foldl (fun l o => l.set (o.row * g.num_cols + o.col) o.state)
              g.grid)) := by rfl

theorem foldl_set_getD_of_ne (ops : List Operation) (l : List Cell) (i w : Nat)
    (h : ∀ op ∈ ops, op.row * w + op.col ≠ i) :
    (ops.foldl (fun acc op => acc.set (op.row * w + op.col) op.state) l).getD i
        Cell.Dead = l.getD i Cell.Dead := by
  induction ops generalizing l with
  | nil => rfl
  | cons op ops ih =>
    rw [List.foldl_cons,
      ih (l.set (op.row * w + op.col) op.state)
        (fun o ho => h o (List.mem_cons_of_mem op ho)),
      getD_set_ne (h op (List.mem_cons_self op ops)) op.state Cell.Dead]

theorem foldl_set_getD_of_mem (ops : List Operation) (l : List Cell) (i w : Nat)
    (v : Cell) (hi : i < l.length)
    (hall : ∀ op ∈ ops, op.row * w + op.col = i → op.state = v)
    (hex : ∃ op ∈ ops, op.row * w + op.col = i) :
    (ops.foldl (fun acc op => acc.set (op.row * w + op.col) op.state) l).getD i
        Cell.Dead = v := by
  induction ops generalizing l with
  | nil =>
    obtain ⟨op, hop, -⟩ := hex
    exact absurd hop (List.not_mem_nil op)
  | cons op ops ih =>
    rw [List.foldl_cons]
    by_cases hrest : ∃ o ∈ ops, o.row * w + o.col = i
    · exact ih (l.set (op.row * w + op.col) op.state)
        (by rw [List.length_set]; exact hi)
        (fun o ho => hall o (List.mem_cons_of_mem op ho)) hrest
    · have hop : op.row * w + op.col = i := by
        obtain ⟨o, ho, hoi⟩ := hex
        rcases List.mem_cons.mp ho with rfl | ho'
        · exact hoi
        · exact absurd ⟨o, ho', hoi⟩ hrest
      have hni : ∀ o ∈ ops, o.row * w + o.col ≠ i := by
        intro o ho hoi
        exact hrest ⟨o, ho, hoi⟩
      rw [foldl_set_getD_of_ne ops _ i w hni, hop,
        getD_set_eq hi op.state Cell.Dead,
        hall op (List.mem_cons_self op ops) hop]

theorem foldl_set_length (ops : List Operation) (l : List Cell) (w : Nat) :
    (ops.foldl (fun acc op => acc.set (op.row * w + op.col) op.state) l).length
      = l.length := by
  induction ops generalizing l with
  | nil => rfl
  | cons op ops ih => rw [List.foldl_cons, ih, List.length_set]

theorem specOps_bounds {s : ConwaySim} {op : Operation} (hop : op ∈ specOps s) :
    op.row < s.grid.num_rows ∧ op.col < s.grid.num_cols := by
  obtain ⟨p, hp, hmem⟩ := mem_specOps hop
  obtain ⟨h1, h2, -⟩ := mem_specOpsAt hmem
  obtain ⟨hp1, hp2⟩ := mem_rowMajorCells.mp hp
  exact ⟨by rw [h1]; exact hp1, by rw [h2]; exact hp2⟩

theorem specOps_at_index {s : ConwaySim} {row col : Nat}
    (hc : col < s.grid.num_cols) {op : Operation} (hop : op ∈ specOps s)
    (hidx : op.row * s.grid.num_cols + op.col = row * s.grid.num_cols + col) :
    op ∈ specOpsAt s (row, col) := by
  obtain ⟨p, hp, hmem⟩ := mem_specOps hop
  obtain ⟨p1, p2⟩ := p
  obtain ⟨h1, h2, -⟩ := mem_specOpsAt hmem
  obtain ⟨hp1, hp2⟩ := mem_rowMajorCells.mp hp
  simp only at h1 h2 hp1 hp2
  obtain ⟨hrr, hcc⟩ : p1 = row ∧ p2 = col :=
    rowMajor_index_inj hp2 hc (by rw [← h1, ← h2]; exact hidx)
  subst hrr
  subst hcc
  exact hmem

/-- Central characterisation of `step`: on a well-formed grid it succeeds,
increments the generation, keeps the dimensions, and sets every cell to
the state Conway's rules assign it from the pre-step snapshot. -/
theorem ConwaySim.step_spec (s : ConwaySim) (hwf : s.grid.wf) :
    ∃ s', s.step? = some s' ∧
      s'.generation = s.generation + 1 ∧
      s'.grid.num_rows = s.grid.num_rows ∧
      s'.grid.num_cols = s.grid.num_cols ∧
      s'.grid.wf ∧
      ∀ row col, row < s.grid.num_rows → col < s.grid.num_cols →
        s'.grid.getT row col = specNextAt s (row, col) := by
  have hcollect := ConwaySim.collect_operations?_eq hwf
  have happly := Grid.apply_operations?_eq hwf (specOps s)
    (fun op hop => specOps_bounds hop)
  refine ⟨ConwaySim.mk (Grid.mk s.grid.num_rows s.grid.num_cols
      ((specOps s).foldl
        (fun l op => l.set (op.row * s.grid.num_cols + op.col) op.state)
        s.grid.grid)) (s.generation + 1), ?_, rfl, rfl, rfl, ?_, ?_⟩
  · rw [ConwaySim.step?, hcollect]
    show s.grid.apply_operations? (specOps s) >>=
      (fun g => pure (ConwaySim.mk g (s.generation + 1))) = _
    rw [happly]
    rfl
  · show ((specOps s).foldl
        (fun l op => l.set (op.row * s.grid.num_cols + op.col) op.state)
        s.grid.grid).length = s.grid.num_rows * s.grid.num_cols
    rw [foldl_set_length]
    exact hwf
  · intro row col hr hc
    have hi : row * s.grid.num_cols + col < s.grid.grid.length :=
      Grid.cell_to_index_lt hwf hr hc
    show ((specOps s).foldl
        (fun l op => l.set (op.row * s.grid.num_cols + op.col) op.state)
        s.grid.grid).getD (row * s.grid.num_cols + col) Cell.Dead
      = specNextAt s (row, col)
    by_cases hch : specNextAt s (row, col) = s.grid.getT row col
    · have hempty : specOpsAt s (row, col) = [] := by
        rw [specOpsAt, if_pos hch]
      have hne : ∀ op ∈ specOps s,
          op.row * s.grid.num_cols + op.col ≠ row * s.grid.num_cols + col := by
        intro op hop hidx
        have := specOps_at_index hc hop hidx
        rw [hempty] at this
        exact absurd this (List.not_mem_nil op)
      rw [foldl_set_getD_of_ne _ _ _ _ hne]
      rw [hch]
      rfl
    · have hsingle : specOpsAt s (row, col) =
          [Operation.mk row col (specNextAt s (row, col))] := by
        rw [specOpsAt, if_neg hch]
      have hmem : Operation.mk row col (specNextAt s (row, col)) ∈ specOps s := by
        rw [specOps]
        refine List.mem_flatten.mpr ⟨specOpsAt s (row, col), ?_, ?_⟩
        · exact List.mem_map_of_mem (specOpsAt s)
            (mem_rowMajorCells.mpr ⟨hr, hc⟩)
        · rw [hsingle]
          exact List.mem_singleton.mpr rfl
      refine foldl_set_getD_of_mem (specOps s) s.grid.grid _ _ _ hi ?_ ?_
      · intro op hop hidx
        have := specOps_at_index hc hop hidx
        rw [hsingle] at this
        rw [List.mem_singleton.mp this]
      · exact ⟨Operation.mk row col (specNextAt s (row, col)), hmem, rfl⟩

/-! ## Generation counting and iterated stepping -/

theorem ConwaySim.step?_generation {s s' : ConwaySim} (h : s.step? = some s') :
    s'.generation = s.generation + 1 := by
  rw [ConwaySim.step?] at h
  simp only [Option.bind_eq_bind'] at h
  cases h1 : s.collect_operations? with
  | none => rw [h1] at h; exact absurd h (by simp)
  | some ops =>
    rw [h1] at h
    simp only [Option.some_bind] at h
    cases h2 : s.grid.apply_operations? ops with
    | none => rw [h2] at h; exact absurd h (by simp)
    | some g =>
      rw [h2] at h
      simp only [Option.some_bind, Option.pure_def, Option.some_inj] at h
      rw [← h]

theorem ConwaySim.stepN_spec (n : Nat) (s : ConwaySim) (hwf : s.grid.wf) :
    ∃ sn, s.stepN? n = some sn ∧ sn.grid.wf ∧
      sn.generation = s.generation + n ∧
      sn.grid.num_rows = s.grid.num_rows ∧
      sn.grid.num_cols = s.grid.num_cols := by
  induction n generalizing s with
  | zero => exact ⟨s, rfl, hwf, rfl, rfl, rfl⟩
  | succ n ih =>
    obtain ⟨s1, hs1, hgen, hrows, hcols, hwf1, -⟩ := ConwaySim.step_spec s hwf
    obtain ⟨sn, hsn, hwfn, hgenn, hrn, hcn⟩ := ih s1 hwf1
    refine ⟨sn, ?_, hwfn, by omega, by rw [hrn, hrows], by rw [hcn, hcols]⟩
    show (s.step? >>= fun t => t.stepN? n) = some sn
    rw [hs1]
    simp only [Option.bind_eq_bind', Option.some_bind]
    exact hsn

/-! ## The all-dead grid -/

theorem ConwaySim.not_alive_getT {s : ConwaySim} (h : s.is_any_cell_alive = false)
    (row col : Nat) : s.grid.getT row col = Cell.Dead := by
  rw [ConwaySim.is_any_cell_alive] at h
  rw [Grid.getT]
  rcases Nat.lt_or_ge (s.grid.cell_to_index row col) s.grid.grid.length with
    hlt | hge
  · rw [getD_eq_getElem hlt]
    cases hcell : s.grid.grid[s.grid.cell_to_index row col] with
    | Dead => rfl
    | Alive =>
      have hmem : Cell.Alive ∈ s.grid.grid := by
        rw [← hcell]
        exact List.getElem_mem hlt
      have := List.any_eq_false.mp h Cell.Alive hmem
      simp at this
  · rw [List.getD_eq_getElem?_getD, List.getElem?_eq_none hge]
    rfl

theorem ConwaySim.not_alive_aliveT {s : ConwaySim} (h : s.is_any_cell_alive = false)
    (row col : Nat) : s.aliveT row col = false := by
  rw [ConwaySim.aliveT, ConwaySim.not_alive_getT h]
  rfl

theorem mooreCountSpec_zero {nr nc : Nat} {alive : Nat → Nat → Bool}
    (h : ∀ r c, alive r c = false) (row col : Nat) :
    mooreCountSpec nr nc alive row col = 0 := by
  simp [mooreCountSpec, mooreOffsets, specContrib, h]

theorem ConwaySim.all_dead_of_getT {s : ConwaySim} (hwf : s.grid.wf)
    (h : ∀ row col, row < s.grid.num_rows → col < s.grid.num_cols →
      s.grid.getT row col = Cell.Dead) : s.is_any_cell_alive = false := by
  rw [ConwaySim.is_any_cell_alive, List.any_eq_false]
  intro cell hmem
  obtain ⟨i, hlt, hcell⟩ := List.mem_iff_getElem.mp hmem
  have hnc : 0 < s.grid.num_cols := by
    rcases Nat.eq_zero_or_pos s.grid.num_cols with h0 | h0
    · rw [hwf, h0, Nat.mul_zero] at hlt
      exact absurd hlt (Nat.not_lt_zero i)
    · exact h0
  have hrow : i / s.grid.num_cols < s.grid.num_rows := by
    rw [Nat.div_lt_iff_lt_mul hnc]
    calc i < s.grid.grid.length := hlt
      _ = s.grid.num_rows * s.grid.num_cols := hwf
  have hcol : i % s.grid.num_cols < s.grid.num_cols := Nat.mod_lt _ hnc
  have hidx : s.grid.cell_to_index (i / s.grid.num_cols) (i % s.grid.num_cols)
      = i := by
    rw [Grid.cell_to_index, Nat.mul_comm, Nat.div_add_mod]
  have hd := h _ _ hrow hcol
  rw [Grid.getT, hidx, getD_eq_getElem hlt, hcell] at hd
  rw [hd]
  decide

/-! ## The blinker oscillator -/

theorem mooreCountSpec_congr {nr nc : Nat} {a1 a2 : Nat → Nat → Bool}
    (h : ∀ r c, r < nr → c < nc → a1 r c = a2 r c) (row col : Nat) :
    mooreCountSpec nr nc a1 row col = mooreCountSpec nr nc a2 row col := by
  have hcontrib : ∀ zr zc : Int,
      specContrib nr nc a1 zr zc = specContrib nr nc a2 zr zc := by
    intro zr zc
    rw [specContrib, specContrib]
    by_cases hin : 0 ≤ zr ∧ zr < (nr : Int) ∧ 0 ≤ zc ∧ zc < (nc : Int)
    · obtain ⟨h1, h2, h3, h4⟩ := hin
      rw [h zr.toNat zc.toNat (by omega) (by omega)]
    · rw [if_neg (fun hc => hin ⟨hc.1, hc.2.1, hc.2.2.1, hc.2.2.2.1⟩),
        if_neg (fun hc => hin ⟨hc.1, hc.2.1, hc.2.2.1, hc.2.2.2.1⟩)]
  rw [mooreCountSpec, mooreCountSpec]
  simp only [hcontrib]

theorem specContrib_hBlinker {nr nc : Nat} (h5r : 5 ≤ nr) (h5c : 5 ≤ nc)
    (zr zc : Int) :
    specContrib nr nc hBlinker zr zc =
      if zr = 2 ∧ (zc = 1 ∨ zc = 2 ∨ zc = 3) then 1 else 0 := by
  rw [specContrib]
  by_cases hz : zr = 2 ∧ (zc = 1 ∨ zc = 2 ∨ zc = 3)
  · rw [if_pos hz, if_pos ?_]
    obtain ⟨hzr, hzc⟩ := hz
    refine ⟨by omega, by omega, by omega, by omega, ?_⟩
    rw [hBlinker]
    exact decide_eq_true (by omega)
  · rw [if_neg hz, if_neg ?_]
    rintro ⟨h0r, hlr, h0c, hlc, halive⟩
    rw [hBlinker, decide_eq_true_eq] at halive
    exact hz (by omega)

theorem specContrib_vBlinker {nr nc : Nat} (h5r : 5 ≤ nr) (h5c : 5 ≤ nc)
    (zr zc : Int) :
    specContrib nr nc vBlinker zr zc =
      if zc = 2 ∧ (zr = 1 ∨ zr = 2 ∨ zr = 3) then 1 else 0 := by
  rw [specContrib]
  by_cases hz : zc = 2 ∧ (zr = 1 ∨ zr = 2 ∨ zr = 3)
  · rw [if_pos hz, if_pos ?_]
    obtain ⟨hzc, hzr⟩ := hz
    refine ⟨by omega, by omega, by omega, by omega, ?_⟩
    rw [vBlinker]
    exact decide_eq_true (by omega)
  · rw [if_neg hz, if_neg ?_]
    rintro ⟨h0r, hlr, h0c, hlc, halive⟩
    rw [vBlinker, decide_eq_true_eq] at halive
    exact hz (by omega)

set_option maxHeartbeats 1600000 in
theorem hBlinker_step {nr nc : Nat} (h5r : 5 ≤ nr) (h5c : 5 ≤ nc)
    (r c : Nat) :
    specNextCell (hBlinker r c) (mooreCountSpec nr nc hBlinker r c) =
      (if vBlinker r c = true then Cell.Alive else Cell.Dead) := by
  simp only [mooreCountSpec, mooreOffsets, List.map_cons, List.map_nil,
    List.sum_cons, List.sum_nil, specContrib_hBlinker h5r h5c]
  rcases Nat.lt_or_ge r 4 with h4 | h4
  · rcases Nat.lt_or_ge c 5 with h5 | h5
    · interval_cases r <;> interval_cases c <;> decide
    · have hb : hBlinker r c = false := by
        rw [hBlinker]
        exact decide_eq_false (by omega)
      have hv : vBlinker r c = false := by
        rw [vBlinker]
        exact decide_eq_false (by omega)
      rw [hb, hv]
      simp only [Bool.false_eq_true, if_false]
      rw [specNextCell]
      simp only [Bool.false_eq_true, if_false]
      exact if_neg (by split_ifs <;> (first | exact not_false | omega))
  · have hb : hBlinker r c = false := by
      rw [hBlinker]
      exact decide_eq_false (by omega)
    have hv : vBlinker r c = false := by
      rw [vBlinker]
      exact decide_eq_false (by omega)
    rw [hb, hv]
    simp only [Bool.false_eq_true, if_false]
    rw [specNextCell]
    simp only [Bool.false_eq_true, if_false]
    exact if_neg (by split_ifs <;> (first | exact not_false | omega))

set_option maxHeartbeats 1600000 in
theorem vBlinker_step {nr nc : Nat} (h5r : 5 ≤ nr) (h5c : 5 ≤ nc)
    (r c : Nat) :
    specNextCell (vBlinker r c) (mooreCountSpec nr nc vBlinker r c) =
      (if hBlinker r c = true then Cell.Alive else Cell.Dead) := by
  simp only [mooreCountSpec, mooreOffsets, List.map_cons, List.map_nil,
    List.sum_cons, List.sum_nil, specContrib_vBlinker h5r h5c]
  rcases Nat.lt_or_ge r 5 with h4 | h4
  · rcases Nat.lt_or_ge c 4 with h5 | h5
    · interval_cases r <;> interval_cases c <;> decide
    · have hb : hBlinker r c = false := by
        rw [hBlinker]
        exact decide_eq_false (by omega)
      have hv : vBlinker r c = false := by
        rw [vBlinker]
        exact decide_eq_false (by omega)
      rw [hb, hv]
      simp only [Bool.false_eq_true, if_false]
      rw [specNextCell]
      simp only [Bool.false_eq_true, if_false]
      exact if_neg (by split_ifs <;> (first | exact not_false | omega))
  · have hb : hBlinker r c = false := by
      rw [hBlinker]
      exact decide_eq_false (by omega)
    have hv : vBlinker r c = false := by
      rw [vBlinker]
      exact decide_eq_false (by omega)
    rw [hb, hv]
    simp only [Bool.false_eq_true, if_false]
    rw [specNextCell]
    simp only [Bool.false_eq_true, if_false]
    exact if_neg (by split_ifs <;> (first | exact not_false | omega))

/-- One step of a grid whose live set is exactly the pattern `P` yields
the live set `Q`, provided the rules send `P` to `Q` pointwise. -/
theorem ConwaySim.pattern_step {s : ConwaySim} (hwf : s.grid.wf)
    {P Q : Nat → Nat → Bool}
    (hs : ∀ r, r < s.grid.num_rows → ∀ c, c < s.grid.num_cols →
      s.aliveT r c = P r c)
    (hstep : ∀ r c, r < s.grid.num_rows → c < s.grid.num_cols →
      specNextCell (P r c)
          (mooreCountSpec s.grid.num_rows s.grid.num_cols P r c) =
        (if Q r c = true then Cell.Alive else Cell.Dead)) :
    ∃ s1, s.step? = some s1 ∧ s1.grid.wf ∧
      s1.grid.num_rows = s.grid.num_rows ∧
      s1.grid.num_cols = s.grid.num_cols ∧
      s1.generation = s.generation + 1 ∧
      ∀ r, r < s.grid.num_rows → ∀ c, c < s.grid.num_cols →
        s1.aliveT r c = Q r c := by
  obtain ⟨s1, h1, hgen, hrows, hcols, hwf1, hpoint⟩ := ConwaySim.step_spec s hwf
  refine ⟨s1, h1, hwf1, hrows, hcols, hgen, ?_⟩
  intro r hr c hc
  have hgetT : s1.grid.getT r c = (if Q r c = true then Cell.Alive else Cell.Dead) := by
    rw [hpoint r c hr hc]
    show specNextCell (s.aliveT r c)
      (mooreCountSpec s.grid.num_rows s.grid.num_cols s.aliveT r c) = _
    rw [hs r hr c hc,
      mooreCountSpec_congr (fun r' c' hr' hc' => hs r' hr' c' hc') r c]
    exact hstep r c hr hc
  rw [ConwaySim.aliveT, hgetT]
  cases hq : Q r c
  · decide
  · decide

/-! ## Setup writes and remaining helpers -/

theorem mooreCountSpec_one_row {nc : Nat} (h2 : 2 ≤ nc)
    (alive : Nat → Nat → Bool) :
    mooreCountSpec 1 nc alive 0 0 = if alive 0 1 = true then 1 else 0 := by
  have h2i : (1 : Int) < (nc : Int) := by exact_mod_cast h2
  simp only [mooreCountSpec, mooreOffsets, List.map_cons, List.map_nil,
    List.sum_cons, List.sum_nil, specContrib]
  norm_num
  by_cases ha : alive 0 1 = true
  · simp [ha, h2i]
    omega
  · simp [ha, h2i]

theorem Grid.set_cells?_spec {g : Grid} (hwf : g.wf) (cells : List (Nat × Nat))
    (h : ∀ p ∈ cells, p.1 < g.num_rows ∧ p.2 < g.num_cols) :
    ∃ g', g.set_cells? cells = some g' ∧
      g'.num_rows = g.num_rows ∧ g'.num_cols = g.num_cols ∧ g'.wf ∧
      (∀ p ∈ cells, g'.getT p.1 p.2 = Cell.Alive) ∧
      (∀ r c, c < g.num_cols → (r, c) ∉ cells → g'.getT r c = g.getT r c) := by
  induction cells generalizing g with
  | nil =>
    exact ⟨g, rfl, rfl, rfl, hwf,
      fun p hp => absurd hp (List.not_mem_nil p),
      fun r c _ _ => rfl⟩
  | cons p cells ih =>
    obtain ⟨p1, p2⟩ := p
    obtain ⟨hp1, hp2⟩ := h (p1, p2) (List.mem_cons_self _ cells)
    obtain ⟨g1, hset, hr1, hc1, hwf1, hget1, hframe1⟩ :=
      Grid.set?_spec hwf hp1 hp2 Cell.Alive
    have h' : ∀ q ∈ cells, q.1 < g1.num_rows ∧ q.2 < g1.num_cols := by
      intro q hq
      obtain ⟨hq1, hq2⟩ := h q (List.mem_cons_of_mem _ hq)
      exact ⟨by rw [hr1]; exact hq1, by rw [hc1]; exact hq2⟩
    obtain ⟨g', hsc, hr', hc', hwf', hget', hframe'⟩ := ih hwf1 h'
    have hchain : g.set_cells? ((p1, p2) :: cells) =
        (g.set? p1 p2 Cell.Alive >>= fun g2 => g2.set_cells? cells) := rfl
    refine ⟨g', ?_, by rw [hr', hr1], by rw [hc', hc1], hwf', ?_, ?_⟩
    · rw [hchain, hset]
      simp only [Option.bind_eq_bind', Option.some_bind]
      exact hsc
    · intro q hq
      rcases List.mem_cons.mp hq with rfl | hq'
      · by_cases hmem : (p1, p2) ∈ cells
        · exact hget' (p1, p2) hmem
        · have := hframe' p1 p2 (by rw [hc1]; exact hp2) hmem
          rw [this]
          exact hget1
      · exact hget' q hq'
    · intro r c hcb hnotin
      have hn1 : (r, c) ∉ cells := fun hx =>
        hnotin (List.mem_cons_of_mem _ hx)
      have hne : ¬(r = p1 ∧ c = p2) := by
        rintro ⟨rfl, rfl⟩
        exact hnotin (List.mem_cons_self _ cells)
      rw [hframe' r c (by rw [hc1]; exact hcb) hn1, hframe1 r c hcb hne]

/-! ## Claims -/

/-- C1, counterexample: the claim says every access with `col ≥ cols`
fails, but on a 2×2 grid reading `(0, 2)` succeeds (it silently reads the
cell at row-major index 2, i.e. cell `(1, 0)`). -/
theorem claim_C1_counterexample :
    (Grid.new 2 2).get? 0 2 = some Cell.Dead ∧
    ((Grid.new 2 2).get? 0 2).isSome = true ∧
    (Grid.new 2 2).num_cols ≤ 2 := by
  decide

/-- C1, amended: a Grid read or write at `(row, col)` fails iff the
row-major index `row*num_cols + col` is `≥ num_rows*num_cols`; in
particular every access with `row ≥ num_rows` fails, but a `col ≥
num_cols` whose index is still in range is silently remapped instead of
failing. -/
theorem claim_C1 (g : Grid) (hwf : g.wf) (row col : Nat) (st : Cell) :
    (g.get? row col = none ↔
      g.num_rows * g.num_cols ≤ row * g.num_cols + col) ∧
    (g.set? row col st = none ↔
      g.num_rows * g.num_cols ≤ row * g.num_cols + col) ∧
    (g.set_cells? [(row, col)] = none ↔
      g.num_rows * g.num_cols ≤ row * g.num_cols + col) ∧
    (g.num_rows ≤ row → g.get? row col = none) := by
  have hget : g.get? row col = none ↔
      g.num_rows * g.num_cols ≤ row * g.num_cols + col := by
    rw [Grid.get?, List.getElem?_eq_none_iff, hwf]
    exact Iff.rfl
  have hset : ∀ st' : Cell, g.set? row col st' = none ↔
      g.num_rows * g.num_cols ≤ row * g.num_cols + col := by
    intro st'
    rw [Grid.set?]
    by_cases hlt : g.cell_to_index row col < g.grid.length
    · rw [if_pos hlt]
      rw [Grid.cell_to_index, hwf] at hlt
      constructor
      · intro hx
        exact absurd hx (by simp)
      · intro hx
        omega
    · rw [if_neg hlt]
      rw [Grid.cell_to_index, hwf] at hlt
      constructor
      · intro _
        omega
      · intro _
        rfl
  refine ⟨hget, hset st, ?_, ?_⟩
  · have hchain : g.set_cells? [(row, col)] =
        (g.set? row col Cell.Alive >>= fun g2 => g2.set_cells? []) := rfl
    rw [hchain]
    cases hs : g.set? row col Cell.Alive with
    | none =>
      simp only [Option.bind_eq_bind', Option.none_bind]
      rw [← hset Cell.Alive, hs]
      simp
    | some g1 =>
      simp only [Option.bind_eq_bind', Option.some_bind]
      rw [show g1.set_cells? ([] : List (Nat × Nat)) = some g1 from rfl]
      constructor
      · intro hx
        exact absurd hx (by simp)
      · intro hx
        have hcontra := (hset Cell.Alive).mpr hx
        rw [hs] at hcontra
        exact absurd hcontra (by simp)
  · intro hx
    refine hget.mpr ?_
    have h1 : g.num_rows * g.num_cols ≤ row * g.num_cols :=
      Nat.mul_le_mul_right _ hx
    omega

/-- C1 witness: on a 2×2 grid, reading row 5 (row ≥ num_rows) fails. -/
theorem claim_C1_witness :
    (Grid.new 2 2).wf ∧
    ((Grid.new 2 2).get? 5 0 = none ↔ 2 * 2 ≤ 5 * 2 + 0) :=
  ⟨by rfl, (claim_C1 (Grid.new 2 2) (by rfl) 5 0 Cell.Alive).1⟩

/-- C10: a coordinate with `col ≥ num_cols` whose row-major index
`row*num_cols + col` is still `< num_rows*num_cols` silently aliases the
in-bounds cell at row `index / num_cols` (a strictly later row), column
`index % num_cols`: `get` reads it without error and `set_cells` writes
it without error. -/
theorem claim_C10 (g : Grid) (hwf : g.wf) (row col : Nat)
    (hc : g.num_cols ≤ col)
    (hidx : row * g.num_cols + col < g.num_rows * g.num_cols) :
    ((g.get? row col).isSome = true) ∧
    g.get? row col =
      some (g.grid.getD (row * g.num_cols + col) Cell.Dead) ∧
    g.get? row col =
      g.get? ((row * g.num_cols + col) / g.num_cols)
        ((row * g.num_cols + col) % g.num_cols) ∧
    (row * g.num_cols + col) / g.num_cols < g.num_rows ∧
    (row * g.num_cols + col) % g.num_cols < g.num_cols ∧
    row < (row * g.num_cols + col) / g.num_cols ∧
    g.set_cells? [(row, col)] =
      some (Grid.mk g.num_rows g.num_cols
        (g.grid.set (row * g.num_cols + col) Cell.Alive)) := by
  have hcpos : 0 < g.num_cols := by
    rcases Nat.eq_zero_or_pos g.num_cols with h0 | h0
    · rw [h0, Nat.mul_zero, Nat.mul_zero] at hidx
      omega
    · exact h0
  have hlen : row * g.num_cols + col < g.grid.length := by
    rw [hwf]
    exact hidx
  have hdm : (row * g.num_cols + col) / g.num_cols * g.num_cols +
      (row * g.num_cols + col) % g.num_cols = row * g.num_cols + col := by
    rw [Nat.mul_comm]
    exact Nat.div_add_mod _ _
  have hgetsome : g.get? row col =
      some (g.grid.getD (row * g.num_cols + col) Cell.Dead) := by
    rw [Grid.get?, Grid.cell_to_index, List.getElem?_eq_getElem hlen,
      getD_eq_getElem hlen]
  have hdiv : (row * g.num_cols + col) / g.num_cols = col / g.num_cols + row := by
    rw [Nat.add_comm (row * g.num_cols) col, Nat.add_mul_div_right _ _ hcpos]
  have hone : 1 ≤ col / g.num_cols := (Nat.one_le_div_iff hcpos).mpr hc
  refine ⟨by rw [hgetsome]; rfl, hgetsome, ?_, ?_, Nat.mod_lt _ hcpos, ?_, ?_⟩
  · rw [Grid.get?, Grid.get?, Grid.cell_to_index, Grid.cell_to_index, hdm]
  · rw [Nat.div_lt_iff_lt_mul hcpos]
    exact hidx
  · omega
  · have hchain : g.set_cells? [(row, col)] =
        (g.set? row col Cell.Alive >>= fun g2 => g2.set_cells? []) := rfl
    rw [hchain, Grid.set?, if_pos (show g.cell_to_index row col < g.grid.length
      from hlen)]
    rfl

/-- C10 witness: on a 2×2 grid the out-of-column coordinate (0,2) aliases
the in-bounds cell (1,0). -/
theorem claim_C10_witness :
    (Grid.new 2 2).wf ∧ (Grid.new 2 2).num_cols ≤ 2 ∧
    0 * 2 + 2 < 2 * 2 ∧
    (Grid.new 2 2).get? 0 2 = (Grid.new 2 2).get? 1 0 :=
  ⟨by rfl, by decide, by decide,
    (claim_C10 (Grid.new 2 2) (by rfl) 0 2 (by decide) (by decide)).2.2.1⟩

/-- C2: on a well-formed grid, one `step` succeeds and gives every cell
the state Conway's four rules assign it from the pre-step snapshot alone:
the neighbour count used is the pre-step count (no in-place update is
ever observed). -/
theorem claim_C2 (s : ConwaySim) (hwf : s.grid.wf) :
    ∃ s', s.step? = some s' ∧
      s'.grid.num_rows = s.grid.num_rows ∧
      s'.grid.num_cols = s.grid.num_cols ∧
      ∀ row col, row < s.grid.num_rows → col < s.grid.num_cols →
        s.get_neighbor_count? row col =
          some (mooreCountSpec s.grid.num_rows s.grid.num_cols
            s.aliveT row col) ∧
        s'.grid.getT row col =
          specNextCell (s.aliveT row col)
            (mooreCountSpec s.grid.num_rows s.grid.num_cols
              s.aliveT row col) := by
  obtain ⟨s', h1, -, hrows, hcols, -, hpoint⟩ := ConwaySim.step_spec s hwf
  refine ⟨s', h1, hrows, hcols, ?_⟩
  intro row col hr hc
  refine ⟨ConwaySim.get_neighbor_count?_eq hwf hr hc, ?_⟩
  rw [hpoint row col hr hc]
  rfl

/-- C2 witness: the step of a freshly constructed 2×2 simulation. -/
theorem claim_C2_witness :
    (ConwaySim.new 2 2).grid.wf ∧
    ∃ s', (ConwaySim.new 2 2).step? = some s' := by
  refine ⟨by rfl, ?_⟩
  obtain ⟨s', h1, -, -, -⟩ := claim_C2 (ConwaySim.new 2 2) (by rfl)
  exact ⟨s', h1⟩

/-- C3: the neighbour count of an in-bounds cell is exactly the number of
live cells among its at most 8 in-bounds Moore neighbours (off-grid
positions contribute 0, never wrapped); in particular on a 1-row grid
with ≥ 2 columns the count at (0,0) depends only on cell (0,1), never on
the last column. -/
theorem claim_C3 (s : ConwaySim) (hwf : s.grid.wf) (row col : Nat)
    (hr : row < s.grid.num_rows) (hc : col < s.grid.num_cols) :
    s.get_neighbor_count? row col =
      some (mooreCountSpec s.grid.num_rows s.grid.num_cols
        s.aliveT row col) ∧
    (s.grid.num_rows = 1 → 2 ≤ s.grid.num_cols →
      s.get_neighbor_count? 0 0 =
        some (if s.aliveT 0 1 = true then 1 else 0)) := by
  refine ⟨ConwaySim.get_neighbor_count?_eq hwf hr hc, ?_⟩
  intro h1 h2
  have h0r : 0 < s.grid.num_rows := by omega
  have h0c : 0 < s.grid.num_cols := by omega
  rw [ConwaySim.get_neighbor_count?_eq hwf h0r h0c, h1,
    mooreCountSpec_one_row h2]

/-- C3 witness: the count at (0,0) of a fresh 2×2 simulation. -/
theorem claim_C3_witness :
    (ConwaySim.new 2 2).grid.wf ∧
    (ConwaySim.new 2 2).get_neighbor_count? 0 0 =
      some (mooreCountSpec 2 2 (ConwaySim.new 2 2).aliveT 0 0) :=
  ⟨by rfl,
    (claim_C3 (ConwaySim.new 2 2) (by rfl) 0 0 (by decide) (by decide)).1⟩

/-- C4: `step` cannot fail on a well-formed grid: no internal index is
out of the cell vector's bounds, so the result is always `some`. -/
theorem claim_C4 (s : ConwaySim) (hwf : s.grid.wf) :
    (s.step?).isSome = true := by
  obtain ⟨s', h1, -, -, -, -, -⟩ := ConwaySim.step_spec s hwf
  rw [h1]
  rfl

/-- C4 witness: stepping a fresh 1×1 simulation succeeds. -/
theorem claim_C4_witness : ((ConwaySim.new 1 1).step?).isSome = true :=
  claim_C4 (ConwaySim.new 1 1) (by rfl)

/-- C5: the all-dead state is a stable fixed point: on a well-formed
all-dead grid every number of further steps is legal, every cell stays
dead, `is_any_cell_alive` stays false, and the generation advances by
exactly the number of steps. -/
theorem claim_C5 (s : ConwaySim) (hwf : s.grid.wf)
    (hdead : s.is_any_cell_alive = false) (n : Nat) :
    ∃ sn, s.stepN? n = some sn ∧ sn.is_any_cell_alive = false ∧
      (∀ row col, sn.grid.getT row col = Cell.Dead) ∧
      sn.generation = s.generation + n := by
  induction n generalizing s with
  | zero =>
    exact ⟨s, rfl, hdead,
      fun r c => ConwaySim.not_alive_getT hdead r c, rfl⟩
  | succ n ih =>
    obtain ⟨s1, hs1, hgen, hrows, hcols, hwf1, hpoint⟩ :=
      ConwaySim.step_spec s hwf
    have hs1dead : s1.is_any_cell_alive = false := by
      apply ConwaySim.all_dead_of_getT hwf1
      intro row col hrow hcol
      rw [hrows] at hrow
      rw [hcols] at hcol
      rw [hpoint row col hrow hcol]
      show specNextCell (s.aliveT row col)
        (mooreCountSpec s.grid.num_rows s.grid.num_cols s.aliveT row col)
        = Cell.Dead
      rw [ConwaySim.not_alive_aliveT hdead,
        mooreCountSpec_zero (fun r c => ConwaySim.not_alive_aliveT hdead r c)]
      decide
    obtain ⟨sn, hsn, hdn, hgTn, hgn⟩ := ih s1 hwf1 hs1dead
    refine ⟨sn, ?_, hdn, hgTn, by omega⟩
    show (s.step? >>= fun t => t.stepN? n) = some sn
    rw [hs1]
    simp only [Option.bind_eq_bind', Option.some_bind]
    exact hsn

/-- C5 witness: a fresh (all-dead) 2×2 simulation stepped 3 times. -/
theorem claim_C5_witness :
    (ConwaySim.new 2 2).is_any_cell_alive = false ∧
    ∃ sn, (ConwaySim.new 2 2).stepN? 3 = some sn ∧
      sn.is_any_cell_alive = false ∧ sn.generation = 3 := by
  refine ⟨by decide, ?_⟩
  obtain ⟨sn, h1, h2, -, h4⟩ := claim_C5 (ConwaySim.new 2 2) (by rfl) (by decide) 3
  exact ⟨sn, h1, h2, by rw [h4]; rfl⟩

/-- C6: blinker oscillation in any grid of at least 5×5: if exactly
(2,1), (2,2), (2,3) are alive, one step yields exactly (1,2), (2,2),
(3,2) alive, and a second step restores exactly (2,1), (2,2), (2,3). -/
theorem claim_C6 (s : ConwaySim) (hwf : s.grid.wf)
    (h5r : 5 ≤ s.grid.num_rows) (h5c : 5 ≤ s.grid.num_cols)
    (hs : ∀ r, r < s.grid.num_rows → ∀ c, c < s.grid.num_cols →
      s.aliveT r c = hBlinker r c) :
    ∃ s1 s2, s.step? = some s1 ∧ s1.step? = some s2 ∧
      s1.generation = s.generation + 1 ∧
      s2.generation = s.generation + 2 ∧
      (∀ r, r < s.grid.num_rows → ∀ c, c < s.grid.num_cols →
        s1.aliveT r c = vBlinker r c) ∧
      (∀ r, r < s.grid.num_rows → ∀ c, c < s.grid.num_cols →
        s2.aliveT r c = hBlinker r c) := by
  obtain ⟨s1, h1, hwf1, hrows1, hcols1, hgen1, halive1⟩ :=
    ConwaySim.pattern_step hwf hs
      (fun r c hr hc => hBlinker_step h5r h5c r c)
  have hs1 : ∀ r, r < s1.grid.num_rows → ∀ c, c < s1.grid.num_cols →
      s1.aliveT r c = vBlinker r c := by
    intro r hr c hc
    rw [hrows1] at hr
    rw [hcols1] at hc
    exact halive1 r hr c hc
  obtain ⟨s2, h2, hwf2, hrows2, hcols2, hgen2, halive2⟩ :=
    ConwaySim.pattern_step hwf1 hs1
      (fun r c hr hc => vBlinker_step
        (by rw [hrows1]; exact h5r) (by rw [hcols1]; exact h5c) r c)
  refine ⟨s1, s2, h1, h2, hgen1, by omega, halive1, ?_⟩
  intro r hr c hc
  refine halive2 r ?_ c ?_
  · rw [hrows1]
    exact hr
  · rw [hcols1]
    exact hc

/-- C6 witness: the concrete 5×5 horizontal blinker. -/
theorem claim_C6_witness :
    (ConwaySim.new_with_grid
      (((Grid.new 5 5).set_cells? [(2, 1), (2, 2), (2, 3)]).getD
        (Grid.new 0 0))).grid.wf ∧
    ∃ s1 s2,
      (ConwaySim.new_with_grid
        (((Grid.new 5 5).set_cells? [(2, 1), (2, 2), (2, 3)]).getD
          (Grid.new 0 0))).step? = some s1 ∧
      s1.step? = some s2 := by
  refine ⟨by rfl, ?_⟩
  obtain ⟨s1, s2, h1, h2, -, -, -, -⟩ :=
    claim_C6 (ConwaySim.new_with_grid
      (((Grid.new 5 5).set_cells? [(2, 1), (2, 2), (2, 3)]).getD
        (Grid.new 0 0)))
      (by rfl) (by decide) (by decide) (by decide)
  exact ⟨s1, s2, h1, h2⟩

/-- C7: starting from generation 0 on any well-formed grid, N steps give
generation N; and each single successful step increments the generation
by exactly 1. -/
theorem claim_C7 (s : ConwaySim) (hwf : s.grid.wf)
    (h0 : s.generation = 0) (n : Nat) :
    (∃ sn, s.stepN? n = some sn ∧ sn.get_generation = n) ∧
    (∀ t t' : ConwaySim, t.step? = some t' →
      t'.get_generation = t.get_generation + 1) := by
  constructor
  · obtain ⟨sn, hsn, -, hgen, -, -⟩ := ConwaySim.stepN_spec n s hwf
    refine ⟨sn, hsn, ?_⟩
    rw [ConwaySim.get_generation, hgen, h0]
    omega
  · intro t t' h
    exact ConwaySim.step?_generation h

/-- C7 witness: a fresh 2×3 simulation reaches generation 4 in 4 steps. -/
theorem claim_C7_witness :
    (ConwaySim.new 2 3).generation = 0 ∧
    ∃ sn, (ConwaySim.new 2 3).stepN? 4 = some sn ∧
      sn.get_generation = 4 :=
  ⟨rfl, (claim_C7 (ConwaySim.new 2 3) (by rfl) rfl 4).1⟩

/-- C8: a freshly constructed grid is entirely dead and reports no live
cell; in general `is_any_cell_alive` is true iff some cell is Alive. -/
theorem claim_C8 :
    (∀ num_rows num_cols : Nat,
      (ConwaySim.new num_rows num_cols).is_any_cell_alive = false ∧
      ∀ row col : Nat,
        (ConwaySim.new num_rows num_cols).grid.getT row col = Cell.Dead) ∧
    (∀ s : ConwaySim,
      s.is_any_cell_alive = true ↔ ∃ cell ∈ s.grid.grid, cell = Cell.Alive) := by
  constructor
  · intro nr nc
    constructor
    · rw [ConwaySim.is_any_cell_alive, List.any_eq_false]
      intro cell hmem
      have := List.eq_of_mem_replicate hmem
      rw [this]
      decide
    · intro row col
      show (List.replicate (nr * nc) Cell.Dead).getD (row * nc + col) Cell.Dead
        = Cell.Dead
      rcases Nat.lt_or_ge (row * nc + col)
          (List.replicate (nr * nc) Cell.Dead).length with hlt | hge
      · rw [getD_eq_getElem hlt, List.getElem_replicate]
      · rw [List.getD_eq_getElem?_getD, List.getElem?_eq_none hge]
        rfl
  · intro s
    rw [ConwaySim.is_any_cell_alive, List.any_eq_true]
    constructor
    · rintro ⟨c, hc, hc2⟩
      refine ⟨c, hc, ?_⟩
      rwa [beq_iff_eq] at hc2
    · rintro ⟨c, hc, rfl⟩
      exact ⟨Cell.Alive, hc, by decide⟩

/-- C9: `set_cells` on in-bounds coordinates succeeds, marks exactly the
listed cells Alive, changes no other cell, and keeps the dimensions;
likewise a single in-bounds `set (row,col,Alive)` makes `get` return
Alive there and changes no other cell. -/
theorem claim_C9 (g : Grid) (hwf : g.wf) :
    (∀ cells : List (Nat × Nat),
      (∀ p ∈ cells, p.1 < g.num_rows ∧ p.2 < g.num_cols) →
      ∃ g', g.set_cells? cells = some g' ∧
        g'.num_rows = g.num_rows ∧ g'.num_cols = g.num_cols ∧
        (∀ p ∈ cells, g'.getT p.1 p.2 = Cell.Alive) ∧
        (∀ r c, r < g.num_rows → c < g.num_cols → (r, c) ∉ cells →
          g'.getT r c = g.getT r c)) ∧
    (∀ row col, row < g.num_rows → col < g.num_cols →
      ∃ g', g.set? row col Cell.Alive = some g' ∧
        g'.getT row col = Cell.Alive ∧
        ∀ r c, r < g.num_rows → c < g.num_cols → ¬(r = row ∧ c = col) →
          g'.getT r c = g.getT r c) := by
  constructor
  · intro cells hb
    obtain ⟨g', h1, h2, h3, h4, h5, h6⟩ := Grid.set_cells?_spec hwf cells hb
    exact ⟨g', h1, h2, h3, h5, fun r c _ hcb hn => h6 r c hcb hn⟩
  · intro row col hr hc
    obtain ⟨g', h1, h2, h3, h4, h5, h6⟩ := Grid.set?_spec hwf hr hc Cell.Alive
    exact ⟨g', h1, h5, fun r c _ hcb hn => h6 r c hcb hn⟩

/-- C9 witness: two writes on a fresh 3×3 grid. -/
theorem claim_C9_witness :
    (Grid.new 3 3).wf ∧
    ∃ g', (Grid.new 3 3).set_cells? [(0, 1), (2, 2)] = some g' ∧
      g'.getT 0 1 = Cell.Alive ∧ g'.getT 2 2 = Cell.Alive ∧
      g'.getT 1 1 = (Grid.new 3 3).getT 1 1 := by
  refine ⟨by rfl, ?_⟩
  obtain ⟨h1, -⟩ := claim_C9 (Grid.new 3 3) (by rfl)
  obtain ⟨g', hset, -, -, halive, hframe⟩ := h1 [(0, 1), (2, 2)] (by decide)
  refine ⟨g', hset, ?_, ?_, ?_⟩
  · exact halive (0, 1) (by decide)
  · exact halive (2, 2) (by decide)
  · exact hframe 1 1 (by decide) (by decide) (by decide)

end GameOfLife
